import Mathlib

/-!
Verification of the VCS multiphase-equilibrium solver setup and write-back
routines (`vcs_solve.cpp`) and of the kinetics reaction-import selection
(`importKinetics.cpp`).  Real numbers of the C++ code are modelled as
rationals; thrown `CanteraError`s are modelled as `Except` errors.
-/

namespace VcsSolve

/-- Unknown type tag of a species (`VCS_SPECIES_TYPE_MOLNUM` /
`VCS_SPECIES_TYPE_INTERFACIALVOLTAGE`). -/
inductive SpeciesUnknown where
  | molNum
  | interfacialVoltage
  deriving DecidableEq, Repr

/-- Element type tag (`VCS_ELEM_TYPE_ABSPOS` (normal),
`VCS_ELEM_TYPE_CHARGENEUTRALITY`, `VCS_ELEM_TYPE_LATTICERATIO`,
`VCS_ELEM_TYPE_ELECTRONCHARGE`). -/
inductive ElemType where
  | normal
  | chargeNeutrality
  | latticeRatio
  | electronCharge
  deriving DecidableEq, Repr

/-- Phase existence flag (`VCS_PHASE_EXIST_ALWAYS` / `_YES` / `_NO`). -/
inductive PhaseExistence where
  | always
  | yes
  | no
  deriving DecidableEq, Repr

/-! ## `vcs_prob_specifyFully`: phase existence flags (lines 743-749) -/

/-- Existence flag assigned to one phase by `vcs_prob_specifyFully`:
`if ((nSpPhase == 1) && (volPhase->phiVarIndex() == 0))` set ALWAYS,
`else if (volPhase->totalMoles() > 0.0)` set YES, else set NO.
`phiVarIndex` is `npos` (here `none`) when the phase has no voltage
unknown. -/
def specifyExistence (nSpPhase : ℕ) (phiVarIndex : Option ℕ)
    (totalMoles : ℚ) : PhaseExistence :=
  if nSpPhase = 1 ∧ phiVarIndex = some 0 then PhaseExistence.always
  else if totalMoles > 0 then PhaseExistence.yes
  else PhaseExistence.no

/-! ## `vcs_prob_specifyFully`: reaction counts (lines 798-810) -/

/-- Count bookkeeping at the end of `vcs_prob_specifyFully`:
`m_numSpeciesRdc = m_nsp`; `m_numRxnTot = 0` if `m_nelem > m_nsp`
else `m_nsp - m_nelem`; `m_numRxnRdc = m_numRxnTot`.
Returns `(m_numSpeciesRdc, m_numRxnTot, m_numRxnRdc)`. -/
def specifyCounts (nsp nelem : ℕ) : ℕ × ℕ × ℕ :=
  let numRxnTot := if nelem > nsp then 0 else nsp - nelem
  (nsp, numRxnTot, numRxnTot)

/-! ## Constructor: formula-matrix row check (lines 564-577) -/

/-- The constructor's copy loop over the formula matrix: for each species
`i`, `nonzero` records whether some entry `FormulaMatrix(i,j)` with
`j < nelem` is nonzero; the first species whose row is entirely zero
raises `CanteraError("VCS_SOLVE::VCS_SOLVE", "species ... has a zero
formula matrix!")`. -/
def checkFormulaRows (nsp nelem : ℕ) (F : ℕ → ℕ → ℚ) : Except String Unit :=
  match (List.range nsp).find? (fun i => (List.range nelem).all (fun j => F i j = 0)) with
  | some _ => Except.error ("species has a zero formula matrix!")
  | none => Except.ok ()

/-! ## Constructor: charge-neutrality goal check (lines 539-557) -/

/-- The `1.0E-9` tolerance of the constructor's charge-neutrality check. -/
def cnTol : ℚ := 1 / 10 ^ 9

/-- The constructor's charge-neutrality loop, as a recursion over the list
of element indices: for an element of type `VCS_ELEM_TYPE_CHARGENEUTRALITY`
with a nonzero goal abundance, a magnitude above `1.0E-9` raises
`CanteraError` ("Charge neutrality condition ... is signicantly nonzero"),
and a smaller magnitude is set to `0.0`; all other goals are untouched.
Returns the resulting goal-abundance vector. -/
def clampChargeNeutrality (elType : ℕ → ElemType) (goal : ℕ → ℚ) :
    List ℕ → Except String (List ℚ)
  | [] => Except.ok []
  | i :: rest =>
    if elType i = ElemType.chargeNeutrality ∧ goal i ≠ 0 then
      if |goal i| > cnTol then
        Except.error ("Charge neutrality condition is signicantly nonzero. Giving up")
      else
        (clampChargeNeutrality elType goal rest).map (fun r => 0 :: r)
    else
      (clampChargeNeutrality elType goal rest).map (fun r => goal i :: r)

/-! ## Constructor: initial mole fractions of one phase (lines 338-353) -/

/-- Total moles `tMoles` accumulated over a phase's species loop: only
species whose unknown type is `VCS_SPECIES_TYPE_MOLNUM` contribute their
mole number `w[kT]` (voltage species carry the electric potential in `w`
and are not summed). Each species is a pair (unknown type, `w` entry). -/
def phaseTMoles (sp : List (SpeciesUnknown × ℚ)) : ℚ :=
  sp.foldl (fun t p => if p.1 = SpeciesUnknown.molNum then t + p.2 else t) 0

/-- The constructor's per-phase mole-fraction assignment: if `tMoles > 0.0`
then `mf[kTa] = w[kTa] / tMoles` for every species of the phase, else
`mf[kTa] = 1.0 / nSpPhase`. -/
def assignMoleFractions (sp : List (SpeciesUnknown × ℚ)) : List ℚ :=
  if phaseTMoles sp > 0 then sp.map (fun p => p.2 / phaseTMoles sp)
  else sp.map (fun _ => 1 / (sp.length : ℚ))

/-! ## `vcs_prob_update`: mole-number write-back (lines 828-853) -/

/-- The linear search of `vcs_prob_update`: `for (j...) { k1 = j; if
(m_speciesMapIndex[j] == i) break; }` yields the first `j < nsp` with
`m_speciesMapIndex[j] == i`, or `nsp - 1` when there is none. -/
def findK1 (nsp : ℕ) (mapIndex : ℕ → ℕ) (i : ℕ) : ℕ :=
  match (List.range nsp).find? (fun j => mapIndex j = i) with
  | some j => j
  | none => nsp - 1

/-- The write-back of the public mole-number vector `w` in
`vcs_prob_update`: for each species `i`, if its unknown type is not
`VCS_SPECIES_TYPE_INTERFACIALVOLTAGE` then `w[i] =
m_molNumSpecies_old[k1]` with `k1` the permutation lookup, else
`w[i] = 0.0`. -/
def writeBackW (nsp : ℕ) (mapIndex : ℕ → ℕ) (unknownType : ℕ → SpeciesUnknown)
    (molNumOld : ℕ → ℚ) : List ℚ :=
  (List.range nsp).map (fun i =>
    if unknownType i ≠ SpeciesUnknown.interfacialVoltage then
      molNumOld (findK1 nsp mapIndex i)
    else 0)

/-- The per-phase scalar transfer of `vcs_prob_update` (lines 851-853):
`pubPhase` receives the solver phase's total inert moles, total moles and
electric potential. Returns the `pubPhase` triple. -/
def pubPhaseScalarTransfer (vTotalMolesInert vTotalMoles vPotential : ℚ) :
    ℚ × ℚ × ℚ :=
  (vTotalMolesInert, vTotalMoles, vPotential)

/-! ## Constructor: goal element-abundance vector (lines 446-473) -/

/-- The `1.0E-10` threshold of the constructor's lattice-ratio clamping. -/
def latticeTol : ℚ := 1 / 10 ^ 10

/-- Inner species loop of the constructor's goal-abundance estimate for
element `j`: starting from the running total `sum0` threaded in from the
previous elements, every species whose unknown type is not interfacial
voltage adds its mole number to `sum` and `m_formulaMatrix(kspec, j) *
m_molNumSpecies_old[kspec]` to the goal. Returns
`(sum, m_elemAbundancesGoal[j])`. -/
def estimateInner (unknownType : ℕ → SpeciesUnknown) (molNum : ℕ → ℚ)
    (F : ℕ → ℕ → ℚ) (j nsp : ℕ) (sum0 : ℚ) : ℚ × ℚ :=
  (List.range nsp).foldl
    (fun p k =>
      if unknownType k ≠ SpeciesUnknown.interfacialVoltage then
        (p.1 + molNum k, p.2 + F k j * molNum k)
      else p)
    (sum0, 0)

/-- The constructor's goal-abundance estimate branch (`gai` empty and
`m_doEstimateEquil == 0`): the element loop threads the running `sum`
through all inner species loops (`sum` is declared outside the element
loop), and zeroes a lattice-ratio element whose goal is below
`1.0E-10 * sum`. -/
def estimateGoals (nelem nsp : ℕ) (elType : ℕ → ElemType)
    (unknownType : ℕ → SpeciesUnknown) (molNum : ℕ → ℚ)
    (F : ℕ → ℕ → ℚ) : List ℚ :=
  ((List.range nelem).foldl
    (fun (st : ℚ × List ℚ) j =>
      ((estimateInner unknownType molNum F j nsp st.1).1,
       st.2 ++ [if elType j = ElemType.latticeRatio ∧
            (estimateInner unknownType molNum F j nsp st.1).2 <
              latticeTol * (estimateInner unknownType molNum F j nsp st.1).1
          then 0 else (estimateInner unknownType molNum F j nsp st.1).2]))
    ((0 : ℚ), ([] : List ℚ))).2

/-- Formulation of the goal element-abundance vector in the constructor:
a nonempty `gai` is copied (with lattice-ratio goals below `1.0E-10`
zeroed); an empty `gai` with `m_doEstimateEquil == 0` uses the estimate
loop; otherwise the constructor throws `CanteraError` ("Element
Abundances, m_elemAbundancesGoal, not specified"). -/
def formGoalAbundances (gai : List ℚ) (doEstimateEquil : ℤ) (nelem nsp : ℕ)
    (elType : ℕ → ElemType) (unknownType : ℕ → SpeciesUnknown)
    (molNum : ℕ → ℚ) (F : ℕ → ℕ → ℚ) : Except String (List ℚ) :=
  if gai.length ≠ 0 then
    Except.ok ((List.range nelem).map (fun i =>
      if elType i = ElemType.latticeRatio ∧ gai.getD i 0 < latticeTol then 0
      else gai.getD i 0))
  else if doEstimateEquil = 0 then
    Except.ok (estimateGoals nelem nsp elType unknownType molNum F)
  else
    Except.error ("Element Abundances, m_elemAbundancesGoal, not specified")

/-- Abundance of element `j` implied by the initial mole numbers: the sum
of `m_formulaMatrix(kspec, j) * m_molNumSpecies_old[kspec]` over the
species whose unknown type is not interfacial voltage. -/
def rawGoal (nsp : ℕ) (unknownType : ℕ → SpeciesUnknown) (molNum : ℕ → ℚ)
    (F : ℕ → ℕ → ℚ) (j : ℕ) : ℚ :=
  (List.range nsp).foldl
    (fun x k =>
      if unknownType k ≠ SpeciesUnknown.interfacialVoltage
      then x + F k j * molNum k else x) 0

/-- Total mole number of the species whose unknown type is not
interfacial voltage. -/
def nonVoltageTotal (nsp : ℕ) (unknownType : ℕ → SpeciesUnknown)
    (molNum : ℕ → ℚ) : ℚ :=
  (List.range nsp).foldl
    (fun x k =>
      if unknownType k ≠ SpeciesUnknown.interfacialVoltage
      then x + molNum k else x) 0

/-! ## `vcs_prob_update`: post-solve cross-checks (lines 859-885) -/

/-- Modelled from the spec: `vcs_doubleEqual` (its implementation is not
among the analyzed sources) tests whether two solver reals agree; the
spec's cross-check wording ("matches", "equals") models it as exact
equality on the embedded reals. -/
def vcsDoubleEqual (a b : ℚ) : Bool := a = b

/-- Data of one phase as seen by the cross-check loop of
`vcs_prob_update`: the public phase (`pubPhase`) fields after the scalar
transfer, the solver phase (`vPhase`) values they are compared with, and
the index maps into the global vectors. -/
structure PhaseCheckData where
  nSpecies : ℕ
  phiVarIndex : Option ℕ
  spGlobal : ℕ → ℕ
  vSpGlobal : ℕ → ℕ
  unknownType : ℕ → SpeciesUnknown
  pubMF : ℕ → ℚ
  vMF : ℕ → ℚ
  electricPotential : ℚ
  totalMolesInert : ℚ
  vTotalMoles : ℚ

/-- The species loop of `vcs_prob_update`'s cross-checks: the voltage
check fires for the species at `phiVarIndex` (comparing the public
electric potential with `m_molNumSpecies_old[k1]`), the mole-fraction
check compares the written-back `mf[kT]` with the solver phase's own
value, and non-voltage species accumulate `w[kT]` onto `sumMoles`. Each
failed comparison throws `CanteraError`. -/
def phaseCheckLoop (molNumOld w : ℕ → ℚ) (ph : PhaseCheckData) :
    List ℕ → ℚ → Except String ℚ
  | [], sumMoles => Except.ok sumMoles
  | k :: rest, sumMoles =>
    if ph.phiVarIndex = some k ∧
        ¬ vcsDoubleEqual ph.electricPotential (molNumOld (ph.vSpGlobal k)) then
      Except.error ("We have an inconsistency in voltage")
    else if ¬ vcsDoubleEqual (ph.pubMF k) (ph.vMF k) then
      Except.error ("We have an inconsistency in mole fraction")
    else
      phaseCheckLoop molNumOld w ph rest
        (if ph.unknownType k ≠ SpeciesUnknown.interfacialVoltage
         then sumMoles + w (ph.spGlobal k) else sumMoles)

/-- One phase of `vcs_prob_update`'s cross-checks: the species loop runs
from `sumMoles = pubPhase->totalMolesInert()`, and the final total-moles
check compares the accumulated sum with `vPhase->totalMoles()`, throwing
on disagreement. -/
def probUpdatePhaseCheck (molNumOld w : ℕ → ℚ) (ph : PhaseCheckData) :
    Except String Unit :=
  match phaseCheckLoop molNumOld w ph (List.range ph.nSpecies)
      ph.totalMolesInert with
  | Except.error msg => Except.error msg
  | Except.ok sumMoles =>
    if ¬ vcsDoubleEqual sumMoles ph.vTotalMoles then
      Except.error ("We have an inconsistency in total moles")
    else Except.ok ()

/-- Sum of the written-back `w[kT]` over the phase's non-voltage species:
what the species loop adds to the inert moles. -/
def phaseMoleSum (ph : PhaseCheckData) (w : ℕ → ℚ) : ℚ :=
  (List.range ph.nSpecies).foldl
    (fun a k =>
      if ph.unknownType k ≠ SpeciesUnknown.interfacialVoltage
      then a + w (ph.spGlobal k) else a) 0

/-- The two per-species cross-checks of `vcs_prob_update` hold for species
`k` of the phase. -/
def speciesChecksOk (molNumOld : ℕ → ℚ) (ph : PhaseCheckData) (k : ℕ) : Prop :=
  (ph.phiVarIndex = some k →
    vcsDoubleEqual ph.electricPotential (molNumOld (ph.vSpGlobal k)) = true) ∧
  vcsDoubleEqual (ph.pubMF k) (ph.vMF k) = true

/-! ## Timing toggle: `vcs_timing_print_lvl` and `disableTiming` -/

/-- Process state relevant to the timing instrumentation: the file-scope
global `vcs_timing_print_lvl` (initially `1`) and the `m_timing_print_lvl`
member of every solver instance constructed so far, in construction
order. -/
structure TimingState where
  globalLvl : ℤ
  instances : List ℤ
  deriving DecidableEq, Repr

/-- Process start: `int vcs_timing_print_lvl = 1;` and no instances. -/
def initTiming : TimingState := ⟨1, []⟩

/-- The constructor's timing initialization: `m_timing_print_lvl(1)` in the
initializer list, then `if (vcs_timing_print_lvl == 0) m_timing_print_lvl
= 0;`. -/
def constructSolver (s : TimingState) : TimingState :=
  { s with instances := s.instances ++ [if s.globalLvl = 0 then 0 else 1] }

/-- `VCS_SOLVE::disableTiming()`: `vcs_timing_print_lvl = 0;` — it writes
only the file-scope global. -/
def disableTiming (s : TimingState) : TimingState :=
  { s with globalLvl := 0 }

/-- Timing-relevant process events: constructing a solver instance, or a
`disableTiming()` call. -/
inductive SolverOp where
  | construct
  | disable
  deriving DecidableEq, Repr

/-- Effect of one event on the timing state. -/
def applyOp (s : TimingState) : SolverOp → TimingState
  | SolverOp.construct => constructSolver s
  | SolverOp.disable => disableTiming s

/-- Effect of a sequence of events. -/
def runOps (s : TimingState) (ops : List SolverOp) : TimingState :=
  ops.foldl applyOp s

end VcsSolve

namespace ImportKinetics

/-- Lexicographic `std::string` comparison `a <= b` (by character code), as
used by `installReactionArrays` in `(rxid >= imin) && (rxid <= imax)`. -/
def lexLe : List Char → List Char → Bool
  | [], _ => true
  | _ :: _, [] => false
  | a :: as, b :: bs =>
    if a < b then true else if b < a then false else lexLe as bs

/-- `imin.find("*")`: position of the first wildcard character, `npos`
(here `none`) when absent. -/
def findStar (s : List Char) : Option ℕ :=
  s.findIdx? (fun c => c = '*')

/-- `substr(0, iwild)` truncation applied to reaction ids; the identity
when no wildcard position was recorded. -/
def truncAt (iwild : Option ℕ) (s : List Char) : List Char :=
  match iwild with
  | some n => s.take n
  | none => s

/-- Wildcard preprocessing of one `include` directive: when `imax == imin`
and `imin` contains a `*`, both bounds become `imin` truncated at the
wildcard position, which is recorded so that ids are truncated there too.
Returns `(imin, imax, iwild)`. -/
def includeBounds (imin imax : List Char) : List Char × List Char × Option ℕ :=
  if imax = imin then
    match findStar imin with
    | some iw => (imin.take iw, imin.take iw, some iw)
    | none => (imin, imax, none)
  else (imin, imax, none)

/-- The id-range test of `installReactionArrays`: the (possibly truncated)
reaction id must satisfy `imin <= rxid && rxid <= imax` lexicographically
against the (possibly truncated) bounds. -/
def matchesInclude (imin imax rxid : List Char) : Bool :=
  let b := includeBounds imin imax
  lexLe b.1 (truncAt b.2.2 rxid) && lexLe (truncAt b.2.2 rxid) b.2.1

/-- The reaction-selection loop of `installReactionArrays` for one
`reactionArray` element, producing the ids of the reactions added to the
kinetics manager in order: with no `include` directive all reactions under
the datasrc node are added; otherwise each directive adds every reaction
whose id passes its range test. -/
def installReactions (incl : List (List Char × List Char))
    (rxns : List (List Char)) : List (List Char) :=
  if incl = [] then rxns
  else incl.flatMap (fun p => rxns.filter (fun r => matchesInclude p.1 p.2 r))

end ImportKinetics

namespace VcsSolve

/-! ## Theorems -/

/-- Entries of a map over a range, looked up with a default. -/
theorem getD_map_range {α : Type} (n : ℕ) (f : ℕ → α) (i : ℕ) (d : α)
    (hi : i < n) : (((List.range n).map f).getD i d) = f i := by
  rw [List.getD_eq_getElem?_getD, List.getElem?_map, List.getElem?_range hi]
  rfl

/-- Shifting the start value out of a conditional accumulation fold. -/
theorem foldl_nonVoltageAdd_shift (unknownType : ℕ → SpeciesUnknown)
    (m : ℕ → ℚ) (l : List ℕ) (a : ℚ) :
    l.foldl (fun x k =>
        if unknownType k ≠ SpeciesUnknown.interfacialVoltage
        then x + m k else x) a =
      a + l.foldl (fun x k =>
        if unknownType k ≠ SpeciesUnknown.interfacialVoltage
        then x + m k else x) 0 := by
  induction l generalizing a with
  | nil => simp
  | cons k rest ih =>
    by_cases hk : unknownType k ≠ SpeciesUnknown.interfacialVoltage
    · rw [List.foldl_cons, List.foldl_cons, if_pos hk, if_pos hk,
        ih (a + m k), ih (0 + m k)]
      ring
    · rw [List.foldl_cons, List.foldl_cons, if_neg hk, if_neg hk, ih a]

/-- The estimate's inner pair fold splits into its two components. -/
theorem estimateInner_fold_eq (unknownType : ℕ → SpeciesUnknown)
    (molNum : ℕ → ℚ) (F : ℕ → ℕ → ℚ) (j : ℕ) (l : List ℕ) (a b : ℚ) :
    l.foldl (fun p k =>
        if unknownType k ≠ SpeciesUnknown.interfacialVoltage then
          (p.1 + molNum k, p.2 + F k j * molNum k)
        else p) (a, b) =
      (l.foldl (fun x k =>
          if unknownType k ≠ SpeciesUnknown.interfacialVoltage
          then x + molNum k else x) a,
       l.foldl (fun x k =>
          if unknownType k ≠ SpeciesUnknown.interfacialVoltage
          then x + F k j * molNum k else x) b) := by
  induction l generalizing a b with
  | nil => rfl
  | cons k rest ih =>
    by_cases hk : unknownType k ≠ SpeciesUnknown.interfacialVoltage
    · rw [List.foldl_cons, List.foldl_cons, List.foldl_cons, if_pos hk,
        if_pos hk, if_pos hk, ih]
    · rw [List.foldl_cons, List.foldl_cons, List.foldl_cons, if_neg hk,
        if_neg hk, if_neg hk, ih]

/-- The inner species loop at start value `sum0` adds the non-voltage mole
total to the running sum and computes the element's implied abundance. -/
theorem estimateInner_eq (unknownType : ℕ → SpeciesUnknown)
    (molNum : ℕ → ℚ) (F : ℕ → ℕ → ℚ) (j nsp : ℕ) (sum0 : ℚ) :
    estimateInner unknownType molNum F j nsp sum0 =
      (sum0 + nonVoltageTotal nsp unknownType molNum,
       rawGoal nsp unknownType molNum F j) := by
  unfold estimateInner
  rw [estimateInner_fold_eq, foldl_nonVoltageAdd_shift]
  rfl

/-- Closed form of the constructor's estimate loop: element `j` receives
its implied abundance unless it is a lattice-ratio element whose implied
abundance is below `1.0E-10` times the running sum accumulated through it
(`(j+1)` times the non-voltage mole total). -/
theorem estimateGoals_eq (nelem nsp : ℕ) (elType : ℕ → ElemType)
    (unknownType : ℕ → SpeciesUnknown) (molNum : ℕ → ℚ) (F : ℕ → ℕ → ℚ) :
    estimateGoals nelem nsp elType unknownType molNum F =
      (List.range nelem).map (fun j =>
        if elType j = ElemType.latticeRatio ∧
            rawGoal nsp unknownType molNum F j <
              latticeTol * ((j : ℚ) * nonVoltageTotal nsp unknownType molNum +
                nonVoltageTotal nsp unknownType molNum)
        then 0 else rawGoal nsp unknownType molNum F j) := by
  have hfold : ∀ n : ℕ, (List.range n).foldl
      (fun (st : ℚ × List ℚ) j =>
        ((estimateInner unknownType molNum F j nsp st.1).1,
         st.2 ++ [if elType j = ElemType.latticeRatio ∧
              (estimateInner unknownType molNum F j nsp st.1).2 <
                latticeTol * (estimateInner unknownType molNum F j nsp st.1).1
            then 0 else (estimateInner unknownType molNum F j nsp st.1).2]))
      ((0 : ℚ), ([] : List ℚ)) =
      ((n : ℚ) * nonVoltageTotal nsp unknownType molNum,
       (List.range n).map (fun j =>
         if elType j = ElemType.latticeRatio ∧
             rawGoal nsp unknownType molNum F j <
               latticeTol * ((j : ℚ) * nonVoltageTotal nsp unknownType molNum +
                 nonVoltageTotal nsp unknownType molNum)
         then 0 else rawGoal nsp unknownType molNum F j)) := by
    intro n
    induction n with
    | zero => simp
    | succ n ih =>
      rw [List.range_succ, List.foldl_append, List.foldl_cons, List.foldl_nil,
        List.map_append, ih]
      simp only [estimateInner_eq]
      rw [Prod.mk.injEq]
      refine ⟨?_, ?_⟩
      · push_cast
        ring
      · rfl
  unfold estimateGoals
  rw [hfold]

/-- C1 (amended): with an empty `gai` and `m_doEstimateEquil == 0`, the
constructor produces the goal vector whose entry for every element `e`
not of lattice-ratio type is the sum of `formulaMatrix(k,e) *
moleNumber[k]` over the non-voltage species (a lattice-ratio entry is
additionally clamped to zero when that sum is below `1.0E-10` times the
running mole total accumulated through element `e`); with an empty `gai`
and `m_doEstimateEquil != 0`, construction throws. -/
theorem formGoalAbundances_spec (gai : List ℚ) (doEstimateEquil : ℤ)
    (nelem nsp : ℕ) (elType : ℕ → ElemType)
    (unknownType : ℕ → SpeciesUnknown) (molNum : ℕ → ℚ) (F : ℕ → ℕ → ℚ) :
    (gai = [] → doEstimateEquil = 0 →
      ∃ l, formGoalAbundances gai doEstimateEquil nelem nsp elType
          unknownType molNum F = Except.ok l ∧
        l.length = nelem ∧
        (∀ j < nelem,
          (elType j ≠ ElemType.latticeRatio →
            l.getD j 0 = rawGoal nsp unknownType molNum F j) ∧
          (elType j = ElemType.latticeRatio →
            (rawGoal nsp unknownType molNum F j <
                latticeTol * ((j : ℚ) * nonVoltageTotal nsp unknownType molNum +
                  nonVoltageTotal nsp unknownType molNum) →
              l.getD j 0 = 0) ∧
            (¬ rawGoal nsp unknownType molNum F j <
                latticeTol * ((j : ℚ) * nonVoltageTotal nsp unknownType molNum +
                  nonVoltageTotal nsp unknownType molNum) →
              l.getD j 0 = rawGoal nsp unknownType molNum F j)))) ∧
    (gai = [] → doEstimateEquil ≠ 0 →
      ∃ msg, formGoalAbundances gai doEstimateEquil nelem nsp elType
          unknownType molNum F = Except.error msg) := by
  constructor
  · intro hg hd
    subst hg
    refine ⟨estimateGoals nelem nsp elType unknownType molNum F, ?_, ?_, ?_⟩
    · rw [formGoalAbundances, if_neg (by simp), if_pos hd]
    · rw [estimateGoals_eq, List.length_map, List.length_range]
    · intro j hj
      rw [estimateGoals_eq]
      constructor
      · intro hne
        rw [getD_map_range _ _ _ _ hj, if_neg (fun hc => hne hc.1)]
      · intro hlr
        constructor
        · intro hsmall
          rw [getD_map_range _ _ _ _ hj, if_pos ⟨hlr, hsmall⟩]
        · intro hbig
          rw [getD_map_range _ _ _ _ hj, if_neg (fun hc => hbig hc.2)]
  · intro hg hd
    subst hg
    exact ⟨_, by rw [formGoalAbundances, if_neg (by simp), if_neg hd]⟩

/-- Witness for C1's amended theorem at concrete inputs: one normal
element, one species of mole number `2` and stoichiometry `3`. -/
theorem formGoalAbundances_spec_witness :
    ∃ l, formGoalAbundances [] 0 1 1 (fun _ => ElemType.normal)
        (fun _ => SpeciesUnknown.molNum) (fun _ => 2) (fun _ _ => 3) =
        Except.ok l ∧
      l.length = 1 ∧
      (∀ j < 1,
        ((fun _ => ElemType.normal) j ≠ ElemType.latticeRatio →
          l.getD j 0 = rawGoal 1 (fun _ => SpeciesUnknown.molNum)
            (fun _ => 2) (fun _ _ => 3) j) ∧
        ((fun _ => ElemType.normal) j = ElemType.latticeRatio →
          (rawGoal 1 (fun _ => SpeciesUnknown.molNum) (fun _ => 2)
              (fun _ _ => 3) j <
              latticeTol * ((j : ℚ) * nonVoltageTotal 1
                (fun _ => SpeciesUnknown.molNum) (fun _ => 2) +
                nonVoltageTotal 1 (fun _ => SpeciesUnknown.molNum)
                  (fun _ => 2)) →
            l.getD j 0 = 0) ∧
          (¬ rawGoal 1 (fun _ => SpeciesUnknown.molNum) (fun _ => 2)
              (fun _ _ => 3) j <
              latticeTol * ((j : ℚ) * nonVoltageTotal 1
                (fun _ => SpeciesUnknown.molNum) (fun _ => 2) +
                nonVoltageTotal 1 (fun _ => SpeciesUnknown.molNum)
                  (fun _ => 2)) →
            l.getD j 0 = rawGoal 1 (fun _ => SpeciesUnknown.molNum)
              (fun _ => 2) (fun _ _ => 3) j))) :=
  (formGoalAbundances_spec [] 0 1 1 (fun _ => ElemType.normal)
    (fun _ => SpeciesUnknown.molNum) (fun _ => 2) (fun _ _ => 3)).1 rfl rfl

/-- C1 counterexample: with one lattice-ratio element and one non-voltage
species of mole number `1` and stoichiometric coefficient `1/10^20`, the
estimate branch produces goal abundance `0`, while the sum of
`formulaMatrix(k,e) * moleNumber[k]` over the non-voltage species is
`1/10^20 != 0` — the claim's unqualified "every element" fails. -/
theorem formGoalAbundances_counterexample :
    formGoalAbundances [] 0 1 1 (fun _ => ElemType.latticeRatio)
        (fun _ => SpeciesUnknown.molNum) (fun _ => 1)
        (fun _ _ => 1 / 10 ^ 20) =
      Except.ok [0] ∧
    rawGoal 1 (fun _ => SpeciesUnknown.molNum) (fun _ => 1)
        (fun _ _ => (1 : ℚ) / 10 ^ 20) 0 = 1 / 10 ^ 20 ∧
    ((0 : ℚ) ≠ 1 / 10 ^ 20) := by
  have hne : SpeciesUnknown.molNum ≠ SpeciesUnknown.interfacialVoltage := by
    decide
  have hraw : rawGoal 1 (fun _ => SpeciesUnknown.molNum) (fun _ => 1)
      (fun _ _ => (1 : ℚ) / 10 ^ 20) 0 = 1 / 10 ^ 20 := by
    norm_num [rawGoal, List.range_succ, hne]
  have htot : nonVoltageTotal 1 (fun _ => SpeciesUnknown.molNum)
      (fun _ => (1 : ℚ)) = 1 := by
    norm_num [nonVoltageTotal, List.range_succ, hne]
  refine ⟨?_, hraw, by norm_num⟩
  rw [formGoalAbundances, if_neg (by simp), if_pos rfl, estimateGoals_eq]
  simp only [show List.range 1 = [0] from rfl, List.map_cons, List.map_nil,
    hraw, htot]
  rw [if_pos ⟨trivial, by norm_num [latticeTol]⟩]

/-- C2: in `vcs_prob_specifyFully`, a phase with a single species whose
independent unknown is the interfacial voltage (`phiVarIndex() == 0`) is
set to `VCS_PHASE_EXIST_ALWAYS`; any other phase is set to
`VCS_PHASE_EXIST_YES` iff its total moles are strictly positive and to
`VCS_PHASE_EXIST_NO` otherwise. -/
theorem specifyExistence_spec (nSpPhase : ℕ) (phiVarIndex : Option ℕ)
    (totalMoles : ℚ) :
    (nSpPhase = 1 ∧ phiVarIndex = some 0 →
      specifyExistence nSpPhase phiVarIndex totalMoles = PhaseExistence.always) ∧
    (¬ (nSpPhase = 1 ∧ phiVarIndex = some 0) →
      ((specifyExistence nSpPhase phiVarIndex totalMoles = PhaseExistence.yes ↔
        0 < totalMoles) ∧
       (specifyExistence nSpPhase phiVarIndex totalMoles = PhaseExistence.no ↔
        ¬ 0 < totalMoles))) := by
  constructor
  · intro h
    simp [specifyExistence, h]
  · intro h
    unfold specifyExistence
    rw [if_neg h]
    by_cases ht : totalMoles > 0
    · simp [ht]
    · simp [ht]

/-- Witness for C2 at concrete inputs. -/
theorem specifyExistence_spec_witness :
    specifyExistence 1 (some 0) 0 = PhaseExistence.always ∧
    (specifyExistence 2 none 3 = PhaseExistence.yes ↔ (0:ℚ) < 3) := by
  refine ⟨(specifyExistence_spec 1 (some 0) 0).1 ⟨rfl, rfl⟩, ?_⟩
  exact ((specifyExistence_spec 2 none 3).2 (by simp)).1

/-- C5: after `vcs_prob_specifyFully`, `m_numRxnTot` equals
`nsp - min nelem nsp` (so `0` when elements outnumber species, else
`nsp - nelem`), and `m_numRxnRdc` is initialized equal to `m_numRxnTot`. -/
theorem specifyCounts_spec (nsp nelem : ℕ) :
    (specifyCounts nsp nelem).2.1 = nsp - min nelem nsp ∧
    (specifyCounts nsp nelem).2.2 = (specifyCounts nsp nelem).2.1 := by
  unfold specifyCounts
  refine ⟨?_, rfl⟩
  by_cases h : nelem > nsp
  · simp only [if_pos h]
    omega
  · simp only [if_neg h]
    omega

/-- When every charge-neutrality goal is small, the loop succeeds and
clamps exactly the nonzero charge-neutrality goals to zero. -/
theorem clampCN_ok_of_small (elType : ℕ → ElemType) (goal : ℕ → ℚ)
    (l : List ℕ)
    (h : ∀ i ∈ l, elType i = ElemType.chargeNeutrality → |goal i| ≤ cnTol) :
    clampChargeNeutrality elType goal l =
      Except.ok (l.map fun i =>
        if elType i = ElemType.chargeNeutrality ∧ goal i ≠ 0 then 0 else goal i) := by
  induction l with
  | nil => rfl
  | cons i rest ih =>
    have hrest : ∀ j ∈ rest, elType j = ElemType.chargeNeutrality →
        |goal j| ≤ cnTol :=
      fun j hj => h j (List.mem_cons_of_mem _ hj)
    by_cases hc : elType i = ElemType.chargeNeutrality ∧ goal i ≠ 0
    · have hle : ¬ (|goal i| > cnTol) :=
        not_lt.mpr (h i (List.mem_cons_self _ _) hc.1)
      rw [clampChargeNeutrality, if_pos hc, if_neg hle, ih hrest, List.map_cons,
        if_pos hc]
      rfl
    · rw [clampChargeNeutrality, if_neg hc, ih hrest, List.map_cons, if_neg hc]
      rfl

/-- A charge-neutrality goal of magnitude above `1.0E-9` anywhere in the
element list makes the loop throw. -/
theorem clampCN_error_of_large (elType : ℕ → ElemType) (goal : ℕ → ℚ)
    (l : List ℕ)
    (h : ∃ i ∈ l, elType i = ElemType.chargeNeutrality ∧ cnTol < |goal i|) :
    ∃ msg, clampChargeNeutrality elType goal l = Except.error msg := by
  induction l with
  | nil => simp at h
  | cons i rest ih =>
    rcases h with ⟨j, hj, hcn, hlarge⟩
    rcases List.mem_cons.mp hj with rfl | hjr
    · have hne : goal j ≠ 0 := by
        intro h0
        rw [h0, abs_zero] at hlarge
        norm_num [cnTol] at hlarge
      exact ⟨_, by rw [clampChargeNeutrality, if_pos ⟨hcn, hne⟩, if_pos hlarge]⟩
    · by_cases hc : elType i = ElemType.chargeNeutrality ∧ goal i ≠ 0
      · by_cases hl : |goal i| > cnTol
        · exact ⟨_, by rw [clampChargeNeutrality, if_pos hc, if_pos hl]⟩
        · rcases ih ⟨j, hjr, hcn, hlarge⟩ with ⟨msg, hmsg⟩
          exact ⟨msg, by rw [clampChargeNeutrality, if_pos hc, if_neg hl, hmsg]; rfl⟩
      · rcases ih ⟨j, hjr, hcn, hlarge⟩ with ⟨msg, hmsg⟩
        exact ⟨msg, by rw [clampChargeNeutrality, if_neg hc, hmsg]; rfl⟩

/-- C4: a charge-neutrality element whose goal magnitude exceeds `1.0E-9`
makes the constructor throw; when all of them are within tolerance the
loop succeeds, and on any successful run every charge-neutrality element's
goal is exactly zero while every other element's goal is untouched. -/
theorem clampChargeNeutrality_spec (nelem : ℕ) (elType : ℕ → ElemType)
    (goal : ℕ → ℚ) :
    ((∃ i < nelem, elType i = ElemType.chargeNeutrality ∧ cnTol < |goal i|) →
      ∃ msg, clampChargeNeutrality elType goal (List.range nelem) =
        Except.error msg) ∧
    ((∀ i < nelem, elType i = ElemType.chargeNeutrality → |goal i| ≤ cnTol) →
      ∃ l, clampChargeNeutrality elType goal (List.range nelem) = Except.ok l) ∧
    (∀ l, clampChargeNeutrality elType goal (List.range nelem) = Except.ok l →
      (∀ i < nelem, elType i = ElemType.chargeNeutrality → l.getD i 0 = 0) ∧
      (∀ i < nelem, elType i ≠ ElemType.chargeNeutrality → l.getD i 0 = goal i)) := by
  refine ⟨?_, ?_, ?_⟩
  · intro h
    rcases h with ⟨i, hi, hcn, hlarge⟩
    exact clampCN_error_of_large elType goal _ ⟨i, List.mem_range.mpr hi, hcn, hlarge⟩
  · intro h
    exact ⟨_, clampCN_ok_of_small elType goal _
      (fun i hi => h i (List.mem_range.mp hi))⟩
  · intro l hl
    have hsmall : ∀ i ∈ List.range nelem, elType i = ElemType.chargeNeutrality →
        |goal i| ≤ cnTol := by
      intro i hi hcn
      by_contra hlarge
      rcases clampCN_error_of_large elType goal (List.range nelem)
        ⟨i, hi, hcn, not_le.mp hlarge⟩ with ⟨msg, hmsg⟩
      rw [hmsg] at hl
      exact Except.noConfusion hl
    have hok := clampCN_ok_of_small elType goal (List.range nelem) hsmall
    rw [hok] at hl
    have hleq : ((List.range nelem).map fun i =>
        if elType i = ElemType.chargeNeutrality ∧ goal i ≠ 0 then 0 else goal i) = l :=
      Except.ok.inj hl
    constructor
    · intro i hi hcn
      rw [← hleq, getD_map_range _ _ _ _ hi]
      by_cases h0 : goal i = 0
      · simp [h0]
      · simp [hcn, h0]
    · intro i hi hcn
      rw [← hleq, getD_map_range _ _ _ _ hi]
      simp [hcn]

/-- Witness for C4 at concrete inputs: a single charge-neutrality element
with goal `1` throws, and with goal `1/10^10` the run succeeds with the
goal clamped to zero. -/
theorem clampChargeNeutrality_spec_witness :
    (∃ msg, clampChargeNeutrality (fun _ => ElemType.chargeNeutrality)
      (fun _ => 1) (List.range 1) = Except.error msg) ∧
    (∀ l, clampChargeNeutrality (fun _ => ElemType.chargeNeutrality)
      (fun _ => (1:ℚ) / 10 ^ 10) (List.range 1) = Except.ok l →
      (∀ i < 1, (fun _ => ElemType.chargeNeutrality) i = ElemType.chargeNeutrality →
        l.getD i 0 = 0) ∧
      (∀ i < 1, (fun _ => ElemType.chargeNeutrality) i ≠ ElemType.chargeNeutrality →
        l.getD i 0 = (1:ℚ) / 10 ^ 10)) := by
  constructor
  · exact (clampChargeNeutrality_spec 1 (fun _ => ElemType.chargeNeutrality)
      (fun _ => 1)).1 ⟨0, by norm_num [cnTol]⟩
  · exact (clampChargeNeutrality_spec 1 (fun _ => ElemType.chargeNeutrality)
      (fun _ => (1:ℚ) / 10 ^ 10)).2.2

/-- C6: during construction, a phase with strictly positive total moles
`tMoles` gets normalized mole fractions `w[k] / tMoles`, and a phase with
`tMoles = 0` gets the uniform mole fraction `1 / nSpPhase` for every
species. -/
theorem assignMoleFractions_spec (sp : List (SpeciesUnknown × ℚ)) :
    (0 < phaseTMoles sp →
      ∀ (k : ℕ) (u : SpeciesUnknown) (wk : ℚ), sp[k]? = some (u, wk) →
        (assignMoleFractions sp)[k]? = some (wk / phaseTMoles sp)) ∧
    (phaseTMoles sp = 0 →
      ∀ (k : ℕ) (p : SpeciesUnknown × ℚ), sp[k]? = some p →
        (assignMoleFractions sp)[k]? = some (1 / (sp.length : ℚ))) := by
  constructor
  · intro ht k u wk hk
    unfold assignMoleFractions
    rw [if_pos ht, List.getElem?_map, hk]
    rfl
  · intro ht k p hk
    unfold assignMoleFractions
    rw [if_neg (by rw [ht]; exact lt_irrefl 0), List.getElem?_map, hk]
    rfl

/-- Witness for C6 at concrete inputs: a two-species phase with moles
`[3, 1]` is normalized to `3/4`, and a phase with zero total moles gets
uniform fractions `1/2`. -/
theorem assignMoleFractions_spec_witness :
    (assignMoleFractions [(SpeciesUnknown.molNum, 3), (SpeciesUnknown.molNum, 1)])[0]? =
      some (3 / phaseTMoles [(SpeciesUnknown.molNum, 3), (SpeciesUnknown.molNum, 1)]) ∧
    (assignMoleFractions [(SpeciesUnknown.molNum, 0), (SpeciesUnknown.molNum, 0)])[1]? =
      some (1 / (2:ℚ)) := by
  constructor
  · exact (assignMoleFractions_spec _).1 (by norm_num [phaseTMoles]) 0
      SpeciesUnknown.molNum 3 rfl
  · exact (assignMoleFractions_spec
      [(SpeciesUnknown.molNum, 0), (SpeciesUnknown.molNum, 0)]).2
      (by norm_num [phaseTMoles]) 1 (SpeciesUnknown.molNum, 0) rfl

/-- When `i` occurs in the first `nsp` values of the species map, the
linear search of `vcs_prob_update` finds an index that maps to `i`. -/
theorem findK1_maps (nsp : ℕ) (mapIndex : ℕ → ℕ) (i : ℕ)
    (h : ∃ j < nsp, mapIndex j = i) :
    mapIndex (findK1 nsp mapIndex i) = i ∧ findK1 nsp mapIndex i < nsp := by
  unfold findK1
  rcases hf : (List.range nsp).find? (fun j => mapIndex j = i) with _ | ⟨j⟩
  · rcases h with ⟨j, hj, hmap⟩
    have := List.find?_eq_none.mp hf j (List.mem_range.mpr hj)
    simp [hmap] at this
  · have hprop := List.find?_some hf
    have hmem := List.mem_range.mp (List.mem_of_find?_eq_some hf)
    simp only [decide_eq_true_eq] at hprop
    exact ⟨hprop, hmem⟩

/-- C10: the write-back of `vcs_prob_update` sets `w[i]` to the converged
mole number found through the `m_speciesMapIndex` permutation for every
mole-number species, and sets `w[i] = 0.0` for every interfacial-voltage
species; the phase's electric potential (not `w`) carries the voltage,
transferred from the solver phase by the per-phase scalar transfer. -/
theorem writeBackW_spec (nsp : ℕ) (mapIndex : ℕ → ℕ)
    (unknownType : ℕ → SpeciesUnknown) (molNumOld : ℕ → ℚ)
    (vI vT vP : ℚ) (i : ℕ) (hi : i < nsp) :
    (unknownType i = SpeciesUnknown.interfacialVoltage →
      (writeBackW nsp mapIndex unknownType molNumOld).getD i 0 = 0) ∧
    (unknownType i = SpeciesUnknown.molNum → (∃ j < nsp, mapIndex j = i) →
      mapIndex (findK1 nsp mapIndex i) = i ∧
      (writeBackW nsp mapIndex unknownType molNumOld).getD i 0 =
        molNumOld (findK1 nsp mapIndex i)) ∧
    (pubPhaseScalarTransfer vI vT vP).2.2 = vP := by
  refine ⟨?_, ?_, rfl⟩
  · intro h
    unfold writeBackW
    rw [getD_map_range _ _ _ _ hi]
    simp [h]
  · intro h hex
    refine ⟨(findK1_maps nsp mapIndex i hex).1, ?_⟩
    unfold writeBackW
    rw [getD_map_range _ _ _ _ hi]
    simp [h]

/-- Witness for C10 at concrete inputs: two species under the swap
permutation, species 0 a mole-number unknown and species 1 a voltage
unknown. -/
theorem writeBackW_spec_witness :
    ((writeBackW 2 (fun j => 1 - j)
        (fun i => if i = 0 then SpeciesUnknown.molNum
                  else SpeciesUnknown.interfacialVoltage)
        (fun j => (j : ℚ) + 5)).getD 1 0 = 0) ∧
    ((fun j => 1 - j) (findK1 2 (fun j => 1 - j) 0) = 0 ∧
      (writeBackW 2 (fun j => 1 - j)
        (fun i => if i = 0 then SpeciesUnknown.molNum
                  else SpeciesUnknown.interfacialVoltage)
        (fun j => (j : ℚ) + 5)).getD 0 0 =
        (fun j => (j : ℚ) + 5) (findK1 2 (fun j => 1 - j) 0)) := by
  constructor
  · exact (writeBackW_spec 2 (fun j => 1 - j) _ _ 0 0 0 1 (by norm_num)).1 rfl
  · exact (writeBackW_spec 2 (fun j => 1 - j) _ _ 0 0 0 0 (by norm_num)).2.1 rfl
      ⟨1, by norm_num⟩

/-- C3: the constructor's formula-matrix copy succeeds iff every species
row has some nonzero entry; a species whose entire row is zero makes it
throw. -/
theorem checkFormulaRows_spec (nsp nelem : ℕ) (F : ℕ → ℕ → ℚ) :
    (checkFormulaRows nsp nelem F = Except.ok () ↔
      ∀ i < nsp, ∃ j < nelem, F i j ≠ 0) := by
  unfold checkFormulaRows
  rcases hf : (List.range nsp).find? (fun i => (List.range nelem).all (fun j => F i j = 0)) with _ | ⟨i⟩
  · simp only [List.find?_eq_none, List.mem_range] at hf
    simp only [true_iff]
    intro i hi
    have := hf i hi
    simp only [List.all_eq_true, List.mem_range, decide_eq_true_eq] at this
    push_neg at this
    exact this
  · have hmem := List.mem_range.mp (List.mem_of_find?_eq_some hf)
    have hprop := List.find?_some hf
    simp only [List.all_eq_true, List.mem_range, decide_eq_true_eq] at hprop
    constructor
    · intro h
      exact absurd h (by simp)
    · intro h
      rcases h i hmem with ⟨j, hj, hne⟩
      exact absurd (hprop j hj) hne

/-- Dispatch: a successful species loop reduces the phase check to the
total-moles comparison. -/
theorem probUpdate_eq_of_loop_ok (molNumOld w : ℕ → ℚ) (ph : PhaseCheckData)
    (v : ℚ)
    (hval : phaseCheckLoop molNumOld w ph (List.range ph.nSpecies)
      ph.totalMolesInert = Except.ok v) :
    probUpdatePhaseCheck molNumOld w ph =
      (if ¬ vcsDoubleEqual v ph.vTotalMoles then
        Except.error ("We have an inconsistency in total moles")
      else Except.ok ()) := by
  unfold probUpdatePhaseCheck
  rw [hval]

/-- Dispatch: a failing species loop fails the phase check with the same
message. -/
theorem probUpdate_eq_of_loop_err (molNumOld w : ℕ → ℚ) (ph : PhaseCheckData)
    (msg : String)
    (hval : phaseCheckLoop molNumOld w ph (List.range ph.nSpecies)
      ph.totalMolesInert = Except.error msg) :
    probUpdatePhaseCheck molNumOld w ph = Except.error msg := by
  unfold probUpdatePhaseCheck
  rw [hval]

/-- A species loop all of whose checks pass accumulates the non-voltage
write-back moles onto the start value. -/
theorem phaseCheckLoop_ok (molNumOld w : ℕ → ℚ) (ph : PhaseCheckData)
    (l : List ℕ) :
    ∀ s : ℚ, (∀ k ∈ l, speciesChecksOk molNumOld ph k) →
      phaseCheckLoop molNumOld w ph l s =
        Except.ok (l.foldl (fun a k =>
          if ph.unknownType k ≠ SpeciesUnknown.interfacialVoltage
          then a + w (ph.spGlobal k) else a) s) := by
  induction l with
  | nil =>
    intro s _
    rfl
  | cons k rest ih =>
    intro s h
    have hk := h k (List.mem_cons_self _ _)
    rw [phaseCheckLoop, if_neg (fun hc => hc.2 (hk.1 hc.1)),
      if_neg (not_not_intro hk.2), List.foldl_cons]
    exact ih _ (fun j hj => h j (List.mem_cons_of_mem _ hj))

/-- A species whose checks fail anywhere in the loop makes it throw. -/
theorem phaseCheckLoop_err (molNumOld w : ℕ → ℚ) (ph : PhaseCheckData)
    (l : List ℕ) :
    ∀ s : ℚ, (∃ k ∈ l, ¬ speciesChecksOk molNumOld ph k) →
      ∃ msg, phaseCheckLoop molNumOld w ph l s = Except.error msg := by
  induction l with
  | nil =>
    intro s h
    simp at h
  | cons k rest ih =>
    intro s h
    by_cases hv : ph.phiVarIndex = some k ∧
        ¬ vcsDoubleEqual ph.electricPotential (molNumOld (ph.vSpGlobal k)) = true
    · exact ⟨_, by rw [phaseCheckLoop, if_pos hv]⟩
    · by_cases hmf : vcsDoubleEqual (ph.pubMF k) (ph.vMF k) = true
      · rcases h with ⟨k0, hk0, hbad⟩
        rcases List.mem_cons.mp hk0 with rfl | hmem
        · exfalso
          apply hbad
          refine ⟨?_, hmf⟩
          intro hA
          by_contra hB
          exact hv ⟨hA, hB⟩
        · rcases ih _ ⟨k0, hmem, hbad⟩ with ⟨msg, hmsg⟩
          exact ⟨msg, by
            rw [phaseCheckLoop, if_neg hv, if_neg (not_not_intro hmf)]
            exact hmsg⟩
      · exact ⟨_, by rw [phaseCheckLoop, if_neg hv, if_pos hmf]⟩

/-- C7: one phase of the post-solve write-back passes iff every species
passes the per-species cross-checks (written-back mole fraction agrees
with the phase adapter's own value, and for the voltage-carrying species
the phase's electric potential agrees with the mole-number-vector entry)
and the inert moles plus written-back species moles agree with the
phase's total moles; otherwise the run ends in a thrown error — never in
a silent correction. -/
theorem probUpdatePhaseCheck_spec (molNumOld w : ℕ → ℚ)
    (ph : PhaseCheckData) :
    (probUpdatePhaseCheck molNumOld w ph = Except.ok () ↔
      ((∀ k < ph.nSpecies, speciesChecksOk molNumOld ph k) ∧
       vcsDoubleEqual (ph.totalMolesInert + phaseMoleSum ph w)
         ph.vTotalMoles = true)) ∧
    (probUpdatePhaseCheck molNumOld w ph ≠ Except.ok () →
      ∃ msg, probUpdatePhaseCheck molNumOld w ph = Except.error msg) := by
  have hfold : (List.range ph.nSpecies).foldl
      (fun a k => if ph.unknownType k ≠ SpeciesUnknown.interfacialVoltage
        then a + w (ph.spGlobal k) else a) ph.totalMolesInert =
      ph.totalMolesInert + phaseMoleSum ph w :=
    foldl_nonVoltageAdd_shift ph.unknownType (fun k => w (ph.spGlobal k)) _ _
  constructor
  · constructor
    · intro h
      by_cases hall : ∀ k < ph.nSpecies, speciesChecksOk molNumOld ph k
      · have hloop := phaseCheckLoop_ok molNumOld w ph (List.range ph.nSpecies)
          ph.totalMolesInert (fun k hk => hall k (List.mem_range.mp hk))
        rw [hfold] at hloop
        rw [probUpdate_eq_of_loop_ok molNumOld w ph _ hloop] at h
        by_cases hd : vcsDoubleEqual (ph.totalMolesInert + phaseMoleSum ph w)
            ph.vTotalMoles = true
        · exact ⟨hall, hd⟩
        · rw [if_pos hd] at h
          exact Except.noConfusion h
      · push_neg at hall
        rcases hall with ⟨k, hk, hbad⟩
        rcases phaseCheckLoop_err molNumOld w ph (List.range ph.nSpecies)
          ph.totalMolesInert ⟨k, List.mem_range.mpr hk, hbad⟩ with ⟨msg, hmsg⟩
        rw [probUpdate_eq_of_loop_err molNumOld w ph msg hmsg] at h
        exact Except.noConfusion h
    · rintro ⟨hall, hdeq⟩
      have hloop := phaseCheckLoop_ok molNumOld w ph (List.range ph.nSpecies)
        ph.totalMolesInert (fun k hk => hall k (List.mem_range.mp hk))
      rw [hfold] at hloop
      rw [probUpdate_eq_of_loop_ok molNumOld w ph _ hloop,
        if_neg (not_not_intro hdeq)]
  · intro hne
    cases hres : probUpdatePhaseCheck molNumOld w ph with
    | ok v =>
      cases v
      exact absurd hres hne
    | error msg => exact ⟨msg, rfl⟩

/-- Witness for C7 at a concrete phase: one mole-number species with
matching mole fractions and moles, so all cross-checks pass. -/
theorem probUpdatePhaseCheck_spec_witness :
    probUpdatePhaseCheck (fun _ => 0) (fun _ => 2)
      ⟨1, none, id, id, fun _ => SpeciesUnknown.molNum, fun _ => 1,
        fun _ => 1, 0, 0, 2⟩ = Except.ok () :=
  (probUpdatePhaseCheck_spec (fun _ => 0) (fun _ => 2)
    ⟨1, none, id, id, fun _ => SpeciesUnknown.molNum, fun _ => 1,
      fun _ => 1, 0, 0, 2⟩).1.mpr
    ⟨fun k _ => ⟨fun h => absurd h (by simp), by simp [vcsDoubleEqual]⟩,
     by simp [vcsDoubleEqual, phaseMoleSum,
       show List.range 1 = [0] from rfl]⟩

/-- C9 counterexample: construct one solver instance while the global
timing level is still `1`, then call `disableTiming()`. The pre-existing
instance keeps `m_timing_print_lvl = 1`, so it is not the case that every
instance has timing level `0` after the call. -/
theorem disableTiming_counterexample :
    (disableTiming (constructSolver initTiming)).instances = [1] ∧
    ¬ (∀ v ∈ (disableTiming (constructSolver initTiming)).instances, v = 0) := by
  refine ⟨rfl, ?_⟩
  intro h
  have := h 1 (by rw [show (disableTiming (constructSolver initTiming)).instances
    = [1] from rfl]; exact List.mem_singleton.mpr rfl)
  norm_num at this

/-- Invariant after the global timing level has been zeroed: it stays
zero, instances present beyond position `n` stay zero, and the first `n`
instances are never modified. -/
theorem runOps_disabled (ops : List SolverOp) (s : TimingState) (n : ℕ)
    (hg : s.globalLvl = 0) (hn : n ≤ s.instances.length)
    (hi : ∀ v ∈ s.instances.drop n, v = 0) :
    (runOps s ops).globalLvl = 0 ∧
    (runOps s ops).instances.take n = s.instances.take n ∧
    (∀ v ∈ (runOps s ops).instances.drop n, v = 0) := by
  induction ops generalizing s with
  | nil => exact ⟨hg, rfl, hi⟩
  | cons op rest ih =>
    cases op with
    | construct =>
      have hinst : ∀ v ∈ (constructSolver s).instances.drop n, v = 0 := by
        intro v hv
        have hv' : v ∈ (s.instances ++ [if s.globalLvl = 0 then 0 else 1]).drop n := hv
        rw [List.drop_append_eq_append_drop] at hv'
        rcases List.mem_append.mp hv' with hv1 | hv2
        · exact hi v hv1
        · have hmem := List.mem_of_mem_drop hv2
          rw [hg] at hmem
          simpa using hmem
      have hn' : n ≤ (constructSolver s).instances.length := by
        show n ≤ (s.instances ++ [if s.globalLvl = 0 then 0 else 1]).length
        rw [List.length_append]
        exact le_trans hn (Nat.le_add_right _ _)
      have hstep := ih (constructSolver s) hg hn' hinst
      have htake : (constructSolver s).instances.take n = s.instances.take n := by
        show (s.instances ++ [if s.globalLvl = 0 then 0 else 1]).take n = _
        rw [List.take_append_eq_append_take, Nat.sub_eq_zero_of_le hn]
        simp
      refine ⟨hstep.1, ?_, hstep.2.2⟩
      calc (runOps s (SolverOp.construct :: rest)).instances.take n
          = (runOps (constructSolver s) rest).instances.take n := rfl
        _ = (constructSolver s).instances.take n := hstep.2.1
        _ = s.instances.take n := htake
    | disable =>
      exact ih (disableTiming s) rfl hn hi

/-- C9 (amended): `disableTiming()` only zeroes the process-wide global
`vcs_timing_print_lvl`. It does not modify any existing instance, and
every instance constructed after the call — under any further sequence of
constructions and `disableTiming()` calls — has `m_timing_print_lvl = 0`. -/
theorem disableTiming_spec (s : TimingState) (ops : List SolverOp) :
    (disableTiming s).instances = s.instances ∧
    (runOps (disableTiming s) ops).globalLvl = 0 ∧
    (runOps (disableTiming s) ops).instances.take s.instances.length =
      s.instances.take s.instances.length ∧
    (∀ v ∈ (runOps (disableTiming s) ops).instances.drop s.instances.length,
      v = 0) := by
  refine ⟨rfl, ?_⟩
  have hdrop : ∀ v ∈ s.instances.drop s.instances.length, v = 0 := by
    rw [List.drop_length]
    intro v hv
    exact absurd hv (List.not_mem_nil v)
  have h := runOps_disabled ops (disableTiming s) s.instances.length rfl
    (le_refl _) hdrop
  exact ⟨h.1, h.2.1, h.2.2⟩

/-- Witness for C9's amended theorem at a concrete input: one instance
exists before `disableTiming()`, one more is constructed afterwards. -/
theorem disableTiming_spec_witness :
    (disableTiming (constructSolver initTiming)).instances =
      (constructSolver initTiming).instances ∧
    (runOps (disableTiming (constructSolver initTiming))
      [SolverOp.construct]).globalLvl = 0 ∧
    (runOps (disableTiming (constructSolver initTiming))
      [SolverOp.construct]).instances.take
        (constructSolver initTiming).instances.length =
      (constructSolver initTiming).instances.take
        (constructSolver initTiming).instances.length ∧
    (∀ v ∈ (runOps (disableTiming (constructSolver initTiming))
      [SolverOp.construct]).instances.drop
        (constructSolver initTiming).instances.length, v = 0) :=
  disableTiming_spec (constructSolver initTiming) [SolverOp.construct]

end VcsSolve

namespace ImportKinetics

/-- C8: for one `reactionArray` element, a reaction is added to the
kinetics manager iff some `include` directive selects its id by the
wildcard-truncated lexicographic range test; with no `include` directive
every reaction under the datasrc node is added. -/
theorem installReactions_spec (incl : List (List Char × List Char))
    (rxns : List (List Char)) :
    (incl = [] → installReactions incl rxns = rxns) ∧
    (incl ≠ [] → ∀ r, r ∈ installReactions incl rxns ↔
      r ∈ rxns ∧ ∃ p ∈ incl, matchesInclude p.1 p.2 r = true) := by
  constructor
  · intro h
    rw [installReactions, if_pos h]
  · intro h r
    rw [installReactions, if_neg h]
    simp only [List.mem_flatMap, List.mem_filter]
    constructor
    · rintro ⟨p, hp, hr, hm⟩
      exact ⟨hr, p, hp, hm⟩
    · rintro ⟨hr, p, hp, hm⟩
      exact ⟨p, hp, hr, hm⟩

/-- Witness for C8 at concrete inputs: with the single directive
`min = "a", max = "c"`, the reaction with id `"b"` is selected and the one
with id `"d"` is not; the spec equivalence is instantiated at id `"b"`. -/
theorem installReactions_spec_witness :
    (['b'] ∈ installReactions [(['a'], ['c'])] [['b'], ['d']] ↔
      ['b'] ∈ [['b'], ['d']] ∧
      ∃ p ∈ [(['a'], ['c'])], matchesInclude p.1 p.2 ['b'] = true) ∧
    installReactions [] [['b'], ['d']] = [['b'], ['d']] := by
  constructor
  · exact (installReactions_spec [(['a'], ['c'])] [['b'], ['d']]).2
      (by simp) ['b']
  · exact (installReactions_spec [] [['b'], ['d']]).1 rfl

end ImportKinetics
